import Mathlib

/-!
Shallow embedding of the assignment decision engine:
`app/simulation/envs/ChildEnv.py` and `app/simulation/policies/ChildPolicy.py`.

Python floats are modelled as rationals (`ℚ`); the float literal `1e-6`
becomes `1 / 1000000`.  Python dicts are modelled as association lists with
`List.lookup` (first match) for `dict.get`, and `List.map Prod.snd` for
`dict.values()`.  A Python value that may fail `isinstance(x, (int, np.integer))`
is modelled by the inductive `ActionVal`.  Functions that can raise an
`IndexError` in Python (the heuristic policy's `obs[action]`) return `Option`,
with `none` standing for the raised fault.
-/

/-- Constant `MAX_VISIBLE_CUSTOMERS = 20` from ChildEnv.py. -/
def MAX_VISIBLE_CUSTOMERS : Nat := 20

/-- Constant `INVALID_CUSTOMER_ID = -1` from ChildEnv.py. -/
def INVALID_CUSTOMER_ID : Int := -1

/-- Customer entity (read-only to this core): id, arrival time, task type. -/
structure Customer where
  id : Int
  arrival_time : ℚ
  task : Int
  deriving DecidableEq, Repr

/-- Appointment entity (read-only to this core). -/
structure Appointment where
  time : ℚ
  customer_id : Int
  task : Int
  service_time : ℚ
  deriving DecidableEq, Repr

/-- Server entity: id plus the task → average-service-time mapping, kept as the
raw association list so that an absent task key is observable. -/
structure Server where
  id : Int
  avg_service_time : List (Int × ℚ)
  deriving DecidableEq, Repr

/-- Modelled from the spec: the read of `server.avg_service_time[task]`.  The
`Server` entity is defined outside this core (it is not under the sources of
the decision engine); per the spec, a capability map missing the task key "is
equivalent to not capable (treat as ≤ 0)", so an absent key reads as `0` and
never faults. -/
def Server.avgServiceTime (s : Server) (task : Int) : ℚ :=
  match s.avg_service_time.lookup task with
  | some v => v
  | none => 0

/-- The environment state visible to the decision engine: the read-only
simulation state plus the engine-owned visible-slot table
(`_visible_customer_ids`). -/
structure EnvState where
  customer_waiting : List (Int × Customer)
  appointments : List (Int × Appointment)
  current_working_server : Server
  system_time : ℚ
  visible_customer_ids : List Int
  deriving Repr

/-- Comparison key used by `_get_candidate_customers`:
`key=lambda c: (c.arrival_time, c.id)`, compared lexicographically as Python
tuple sort does. -/
def candLe (a b : Customer) : Bool :=
  decide (a.arrival_time < b.arrival_time) ||
    (decide (a.arrival_time = b.arrival_time) && decide (a.id ≤ b.id))

/-- Embeds `ChildEnv._get_candidate_customers`: filter waiting customers whose task
the selected server serves with strictly positive average service time, then
sort (stably) by `(arrival_time, id)`. -/
def get_candidate_customers (st : EnvState) : List Customer :=
  let server := st.current_working_server
  let candidates := (st.customer_waiting.map Prod.snd).filter
    (fun customer => decide (0 < server.avgServiceTime customer.task))
  candidates.mergeSort candLe

/-- The pure part of `ChildEnv._get_obs`: from the ordered candidate list,
build the truncated visible-id table and the fixed-width observation vector
(ids right-padded with the sentinel). -/
def encode_obs (candidates : List Customer) : List Int × List Int :=
  let visible := (candidates.take MAX_VISIBLE_CUSTOMERS).map (fun c => c.id)
  let obs := visible ++
    List.replicate (MAX_VISIBLE_CUSTOMERS - visible.length) INVALID_CUSTOMER_ID
  (obs, visible)

/-- Embeds `ChildEnv._get_obs`: returns the observation vector and the state with the
visible-slot table (`_visible_customer_ids`) overwritten. -/
def get_obs (st : EnvState) : List Int × EnvState :=
  let p := encode_obs (get_candidate_customers st)
  (p.1, { st with visible_customer_ids := p.2 })

/-- An action value as received by `_get_customer_from_action`: either an
integral value or a structurally malformed (non-integer) value, which in the
source fails `isinstance(action, (int, np.integer))`. -/
inductive ActionVal where
  | intVal : Int → ActionVal
  | nonInt : ActionVal
  deriving DecidableEq, Repr

/-- Embeds `ChildEnv._get_customer_from_action`: decode an action to a customer, or
`none` for any rejected action.  The `getD _ 0` read is only reached when the
index is within the visible-slot table, so the default is never used. -/
def get_customer_from_action (st : EnvState) (action : ActionVal) :
    Option Customer :=
  match action with
  | .nonInt => none
  | .intVal a =>
    if a < 0 ∨ (MAX_VISIBLE_CUSTOMERS : Int) ≤ a then none
    else if (st.visible_customer_ids.length : Int) ≤ a then none
    else
      let customer_id := st.visible_customer_ids.getD a.toNat 0
      match st.customer_waiting.lookup customer_id with
      | none => none
      | some customer =>
        if st.current_working_server.avgServiceTime customer.task ≤ 0 then none
        else some customer

/-- Embeds `ChildEnv._get_invalid_action_reward`. -/
def get_invalid_action_reward : ℚ := -10

/-- Embeds `ChildEnv._get_valid_reward`: base 2.0, capped waiting bonus, and the
punctuality bonus when an appointment exists. -/
def get_valid_reward (st : EnvState) (customer : Customer) : ℚ :=
  let waiting_time := st.system_time - customer.arrival_time
  let reward : ℚ := 2
  let reward := reward + min (waiting_time / 15) 6
  match st.appointments.lookup customer.id with
  | some appointment =>
    let delay := |st.system_time - appointment.time|
    reward + max 0 (4 - delay / 5)
  | none => reward

/-- Embeds `ChildEnv._get_hold_action_number`. -/
def get_hold_action_number : Nat := MAX_VISIBLE_CUSTOMERS

/-- Embeds `ChildEnv.action_masks`: all-False vector of length 21, set the populated
slot indices True, then set the HOLD index True. -/
def action_masks (st : EnvState) : List Bool :=
  let valid_slots := min st.visible_customer_ids.length MAX_VISIBLE_CUSTOMERS
  let mask := (List.range valid_slots).foldl (fun m idx => m.set idx true)
    (List.replicate (MAX_VISIBLE_CUSTOMERS + 1) false)
  mask.set get_hold_action_number true

/-- The score the loop body of `ChildPolicy._predict` computes for a resolved
customer: waiting time, plus the appointment-proximity bonus and early-arrival
penalty when an appointment exists, minus the id tie-breaker. -/
def heuristic_score (sim_time : ℚ) (appointments : List (Int × Appointment))
    (customer_id : Int) (customer : Customer) : ℚ :=
  let waiting_time := sim_time - customer.arrival_time
  let score := waiting_time
  let score :=
    match appointments.lookup customer_id with
    | some appointment =>
      let score := score + max 0 (120 - 4 * |sim_time - appointment.time|)
      if sim_time < appointment.time - 30 then
        score - (appointment.time - sim_time - 30) * 2
      else score
    | none => score
  score - customer.id * (1 / 1000000)

/-- Comparison `score > best_score` against the running best, where `none` models the
initial `-float("inf")`. -/
def betterThan (score : ℚ) : Option ℚ → Bool
  | none => true
  | some best => decide (best < score)

/-- The candidate service actions `ChildPolicy._predict` iterates over: the
indices at which the mask is `True`, the HOLD index (`len(mask) - 1`)
excluded. -/
def policy_service_actions (action_mask : List Bool) : List Nat :=
  let hold_action := action_mask.length - 1
  let valid_actions := (action_mask.enum.filter (fun p => p.2)).map Prod.fst
  valid_actions.filter (fun a => decide (a ≠ hold_action))

/-- The scoring loop of `ChildPolicy._predict` over the remaining service
actions, carrying `(best_action, best_score)`.  Returns `none` exactly when
the Python `obs[action]` read would raise `IndexError`. -/
def predict_scan (obs : List Int) (sim_time : ℚ)
    (waiting_customers : List (Int × Customer))
    (appointments : List (Int × Appointment)) :
    List Nat → Nat → Option ℚ → Option (Nat × Option ℚ)
  | [], best_action, best_score => some (best_action, best_score)
  | action :: rest, best_action, best_score =>
    match obs[action]? with
    | none => none
    | some customer_id =>
      if customer_id < 0 then
        predict_scan obs sim_time waiting_customers appointments rest
          best_action best_score
      else
        match waiting_customers.lookup customer_id with
        | none =>
          predict_scan obs sim_time waiting_customers appointments rest
            best_action best_score
        | some customer =>
          let score := heuristic_score sim_time appointments customer_id customer
          if betterThan score best_score then
            predict_scan obs sim_time waiting_customers appointments rest
              action (some score)
          else
            predict_scan obs sim_time waiting_customers appointments rest
              best_action best_score

/-- Embeds `ChildPolicy._predict`: `obs` and `action_mask` as delivered by the
environment, `sim_time` from `info`, and the two lookup dicts read from the
unwrapped environment.  `some a` is the returned action; `none` models the
`IndexError` raised when a service action indexes past the end of `obs`. -/
def predict (obs : List Int) (action_mask : List Bool) (sim_time : ℚ)
    (waiting_customers : List (Int × Customer))
    (appointments : List (Int × Appointment)) : Option Nat :=
  if action_mask.isEmpty then some 0
  else
    let hold_action := action_mask.length - 1
    let service_actions := policy_service_actions action_mask
    if service_actions.isEmpty then some hold_action
    else
      match predict_scan obs sim_time waiting_customers appointments
          service_actions hold_action none with
      | none => none
      | some (best_action, _) => some best_action

/-- Whether the heuristic loop scores service action `action`, and with what
score: `none` when the slot holds a negative id or an id absent from the
waiting set (the loop's `continue` branches), or when `action` is out of range
of `obs`. -/
def score_at (obs : List Int) (sim_time : ℚ)
    (waiting_customers : List (Int × Customer))
    (appointments : List (Int × Appointment)) (action : Nat) : Option ℚ :=
  match obs[action]? with
  | none => none
  | some customer_id =>
    if customer_id < 0 then none
    else
      match waiting_customers.lookup customer_id with
      | none => none
      | some customer =>
        some (heuristic_score sim_time appointments customer_id customer)

/- Restore default reducibility of the rational-number operations so that
concrete states evaluate by `decide`. -/
attribute [local semireducible] Rat.add Rat.sub Rat.mul Rat.inv

/-! ### Example entities used in concrete evaluations and witnesses -/

/-- Customer A of the spec's heuristic example: arrival time 0, no appointment. -/
def exCustomerA : Customer := { id := 101, arrival_time := 0, task := 1 }

/-- Customer B of the spec's heuristic example: arrival time 10, appointment at 50. -/
def exCustomerB : Customer := { id := 202, arrival_time := 10, task := 1 }

/-- Customer B's appointment, scheduled exactly at the example's current time 50. -/
def exAppointmentB : Appointment :=
  { time := 50, customer_id := 202, task := 1, service_time := 5 }

/-- A server able to serve task 1 (average service time 5) and nothing else. -/
def exServer : Server := { id := 7, avg_service_time := [(1, 5)] }

/-- Example state: both customers waiting, no appointments, simulation time 30. -/
def exState : EnvState :=
  { customer_waiting := [(101, exCustomerA), (202, exCustomerB)]
    appointments := []
    current_working_server := exServer
    system_time := 30
    visible_customer_ids := [101, 202] }

/-- State `exState` with an appointment for customer A at time 30 (the current time). -/
def exStateAp : EnvState :=
  { exState with
    appointments := [(101, { time := 30, customer_id := 101, task := 1, service_time := 5 })] }

/-! ### Helper lemmas -/

/-- A task key absent from the raw capability map reads as average service
time `0`. -/
theorem avgServiceTime_of_lookup_none {s : Server} {t : Int}
    (h : s.avg_service_time.lookup t = none) : s.avgServiceTime t = 0 := by
  simp [Server.avgServiceTime, h]

/-! ### Claims -/

/-- C1: a waiting customer whose task is absent from the selected server's
`avg_service_time` mapping is treated as "not capable": it never appears among
the selected candidates, and the decoder never returns a customer with that
task.  (Both functions are total Lean functions, so no input faults; the read
of the capability map is spec-modelled to yield 0 on a missing key.) -/
theorem C1_missing_task_not_capable (st : EnvState) (t : Int)
    (h : st.current_working_server.avg_service_time.lookup t = none) :
    (∀ c ∈ get_candidate_customers st, c.task ≠ t) ∧
    (∀ (a : ActionVal) (c : Customer),
      get_customer_from_action st a = some c → c.task ≠ t) := by
  have hz := avgServiceTime_of_lookup_none h
  constructor
  · intro c hc hct
    simp only [get_candidate_customers, List.mem_mergeSort, List.mem_filter] at hc
    rw [hct, hz] at hc
    simp at hc
  · intro a c hac hct
    cases a with
    | nonInt => simp [get_customer_from_action] at hac
    | intVal n =>
      simp only [get_customer_from_action] at hac
      split at hac
      · exact Option.noConfusion hac
      · split at hac
        · exact Option.noConfusion hac
        · revert hac
          split
          · intro hac; exact Option.noConfusion hac
          · split
            · intro hac; exact Option.noConfusion hac
            · intro hac
              rename_i customer hlook hpos
              obtain rfl : customer = c := Option.some.injEq _ _ ▸ hac
              rw [hct, hz] at hpos
              exact hpos le_rfl

/-- Witness for C1 at a concrete state: task 9 is absent from `exServer`'s
capability map, so no candidate has task 9 and no decode yields task 9. -/
theorem C1_missing_task_not_capable_witness :
    (exState.current_working_server.avg_service_time.lookup 9 = none) ∧
    ((∀ c ∈ get_candidate_customers exState, c.task ≠ 9) ∧
      (∀ (a : ActionVal) (c : Customer),
        get_customer_from_action exState a = some c → c.task ≠ 9)) :=
  ⟨by decide, C1_missing_task_not_capable exState 9 (by decide)⟩

/-- C2: the valid-action reward is `2 + min(wait/15, 6)` plus, exactly when an
appointment exists, `max(0, 4 - |t - appointment.time|/5)`; in particular the
spec's two worked examples evaluate to 4 and 8. -/
theorem C2_valid_reward_formula :
    (∀ (st : EnvState) (c : Customer),
      get_valid_reward st c =
        2 + min ((st.system_time - c.arrival_time) / 15) 6 +
          (st.appointments.lookup c.id).elim 0
            (fun ap => max 0 (4 - |st.system_time - ap.time| / 5))) ∧
    get_valid_reward exState exCustomerA = 4 ∧
    get_valid_reward exStateAp exCustomerA = 8 := by
  refine ⟨fun st c => ?_, by decide, by decide⟩
  unfold get_valid_reward
  cases st.appointments.lookup c.id <;> simp [Option.elim]

/-- C9: holding the customer id (hence the appointment term) and the state
fixed, a customer with the smaller waiting time `t - arrival_time` never gets
a larger valid-action reward, the cap hypothesis included as stated. -/
theorem C9_reward_monotone (st : EnvState) (c1 c2 : Customer)
    (hid : c1.id = c2.id)
    (hw : st.system_time - c1.arrival_time ≤ st.system_time - c2.arrival_time)
    (hcap : (st.system_time - c2.arrival_time) / 15 ≤ 6) :
    get_valid_reward st c1 ≤ get_valid_reward st c2 := by
  unfold get_valid_reward
  rw [hid]
  have hdiv : (st.system_time - c1.arrival_time) / 15 ≤
      (st.system_time - c2.arrival_time) / 15 := by
    apply div_le_div_of_nonneg_right hw  -- may need name fix
    norm_num
  have hmin : min ((st.system_time - c1.arrival_time) / 15) 6 ≤
      min ((st.system_time - c2.arrival_time) / 15) 6 :=
    min_le_min hdiv le_rfl
  cases st.appointments.lookup c2.id <;> simp only [] <;> linarith

/-- Witness for C9: customer with wait 15 versus wait 30 (both below the cap)
in the example state. -/
theorem C9_reward_monotone_witness :
    ((({ id := 101, arrival_time := 15, task := 1 } : Customer).id =
        ({ id := 101, arrival_time := 0, task := 1 } : Customer).id) ∧
      (exState.system_time - (15 : ℚ) ≤ exState.system_time - 0) ∧
      ((exState.system_time - (0 : ℚ)) / 15 ≤ 6)) ∧
    get_valid_reward exState { id := 101, arrival_time := 15, task := 1 } ≤
      get_valid_reward exState { id := 101, arrival_time := 0, task := 1 } :=
  ⟨⟨by decide, by decide, by decide⟩,
    C9_reward_monotone exState
      { id := 101, arrival_time := 15, task := 1 }
      { id := 101, arrival_time := 0, task := 1 }
      (by decide) (by decide) (by decide)⟩

/-- C10: when the customer has already arrived, the valid-action reward lies
in `[2, 12]`; and there is a state with the arrival still in the future whose
reward drops below 2 (the wait term is not clamped below). -/
theorem C10_reward_bounds :
    (∀ (st : EnvState) (c : Customer), c.arrival_time ≤ st.system_time →
      2 ≤ get_valid_reward st c ∧ get_valid_reward st c ≤ 12) ∧
    (∃ (st : EnvState) (c : Customer),
      st.system_time < c.arrival_time ∧ get_valid_reward st c < 2) := by
  constructor
  · intro st c harr
    have hw : 0 ≤ st.system_time - c.arrival_time := by linarith
    have h0 : (0 : ℚ) ≤ min ((st.system_time - c.arrival_time) / 15) 6 :=
      le_min (by positivity) (by norm_num)
    have h6 : min ((st.system_time - c.arrival_time) / 15) 6 ≤ 6 :=
      min_le_right _ _
    unfold get_valid_reward
    cases hl : st.appointments.lookup c.id with
    | none => constructor <;> simp only [] <;> linarith
    | some ap =>
      have habs : (0 : ℚ) ≤ |st.system_time - ap.time| := abs_nonneg _
      have hm0 : (0 : ℚ) ≤ max 0 (4 - |st.system_time - ap.time| / 5) :=
        le_max_left _ _
      have hm4 : max 0 (4 - |st.system_time - ap.time| / 5) ≤ 4 := by
        apply max_le (by norm_num)
        have : (0 : ℚ) ≤ |st.system_time - ap.time| / 5 := by positivity
        linarith
      constructor <;> simp only [] <;> linarith
  · refine ⟨{ exState with system_time := 0 },
      { id := 101, arrival_time := 100, task := 1 }, by decide, by decide⟩

/-- Witness for C10: the universal part applied to the example state and a
customer that arrived at time 0 (current time 30). -/
theorem C10_reward_bounds_witness :
    (exCustomerA.arrival_time ≤ exState.system_time) ∧
    (2 ≤ get_valid_reward exState exCustomerA ∧
      get_valid_reward exState exCustomerA ≤ 12) :=
  ⟨by decide, C10_reward_bounds.1 exState exCustomerA (by decide)⟩

/-- C3: the decoder returns `some c` exactly when the action is an integral
value `i` with `0 ≤ i < 20`, `i` below the populated-slot count, the id stored
in slot `i` still maps to `c` in the waiting set, and the selected server's
average service time for `c`'s task is strictly positive; any negative,
too-large, beyond-populated-slots, or non-integral action decodes to
"no customer". -/
theorem C3_decoder_characterization (st : EnvState) (a : ActionVal)
    (c : Customer) :
    (get_customer_from_action st a = some c ↔
      ∃ i : Nat, a = ActionVal.intVal (i : Int) ∧ i < MAX_VISIBLE_CUSTOMERS ∧
        i < st.visible_customer_ids.length ∧
        st.customer_waiting.lookup (st.visible_customer_ids.getD i 0) = some c ∧
        0 < st.current_working_server.avgServiceTime c.task) ∧
    (∀ n : Int, (n < 0 ∨ (MAX_VISIBLE_CUSTOMERS : Int) ≤ n ∨
        (st.visible_customer_ids.length : Int) ≤ n) →
      get_customer_from_action st (ActionVal.intVal n) = none) ∧
    get_customer_from_action st ActionVal.nonInt = none := by
  refine ⟨⟨?_, ?_⟩, ?_, rfl⟩
  · intro h
    cases a with
    | nonInt => exact absurd h (by simp [get_customer_from_action])
    | intVal n =>
      simp only [get_customer_from_action] at h
      split at h
      · exact Option.noConfusion h
      · rename_i h1
        split at h
        · exact Option.noConfusion h
        · rename_i h2
          push_neg at h1 h2
          obtain ⟨hn0, hn20⟩ := h1
          split at h
          · exact Option.noConfusion h
          · rename_i customer heq
            split at h
            · exact Option.noConfusion h
            · rename_i hcap
              obtain rfl : customer = c := Option.some.injEq _ _ ▸ h
              exact ⟨n.toNat, by rw [Int.toNat_of_nonneg hn0], by omega, by omega,
                heq, lt_of_not_le hcap⟩
  · rintro ⟨i, rfl, h20, hlen, hlook, hpos⟩
    simp only [get_customer_from_action]
    rw [if_neg (by omega), if_neg (by omega)]
    have hi : ((i : Int)).toNat = i := by omega
    rw [hi, hlook]
    show (if st.current_working_server.avgServiceTime c.task ≤ 0 then none
      else some c) = some c
    rw [if_neg (not_le.mpr hpos)]
  · intro n hn
    simp only [get_customer_from_action]
    rcases hn with hn | hn | hn
    · rw [if_pos (Or.inl hn)]
    · rw [if_pos (Or.inr hn)]
    · by_cases h1 : n < 0 ∨ (MAX_VISIBLE_CUSTOMERS : Int) ≤ n
      · rw [if_pos h1]
      · rw [if_neg h1, if_pos hn]

/-- Witness for C3 at the spec's example invalid action 25 (capacity 20): the
decoder yields "no customer". -/
theorem C3_decoder_characterization_witness :
    ((25 : Int) < 0 ∨ (MAX_VISIBLE_CUSTOMERS : Int) ≤ 25 ∨
      ((exState.visible_customer_ids.length : Int) ≤ 25)) ∧
    get_customer_from_action exState (ActionVal.intVal 25) = none :=
  ⟨by decide,
    (C3_decoder_characterization exState (ActionVal.intVal 25) exCustomerA).2.1
      25 (by decide)⟩

/-- C6: for every candidate list, the observation is exactly 20 entries long,
equal to the candidates' ids in order on the first `min(length, 20)` slots and
to the sentinel `-1` on every remaining slot; the truncated id list itself is
stored as the visible-slot table, and `_get_obs` wires exactly these two
outputs, with no failure for lists longer than the capacity. -/
theorem C6_obs_encoding (candidates : List Customer) (st : EnvState) :
    (encode_obs candidates).1.length = MAX_VISIBLE_CUSTOMERS ∧
    (∀ i, i < min candidates.length MAX_VISIBLE_CUSTOMERS →
      (encode_obs candidates).1.getD i 0 =
        (candidates.map (fun c => c.id)).getD i 0) ∧
    (∀ i, i < MAX_VISIBLE_CUSTOMERS →
      min candidates.length MAX_VISIBLE_CUSTOMERS ≤ i →
      (encode_obs candidates).1.getD i 0 = INVALID_CUSTOMER_ID) ∧
    (encode_obs candidates).2 =
      (candidates.map (fun c => c.id)).take MAX_VISIBLE_CUSTOMERS ∧
    (get_obs st).1 = (encode_obs (get_candidate_customers st)).1 ∧
    (get_obs st).2.visible_customer_ids =
      (encode_obs (get_candidate_customers st)).2 := by
  have hvis : ((candidates.take MAX_VISIBLE_CUSTOMERS).map
      (fun c => c.id)).length = min candidates.length MAX_VISIBLE_CUSTOMERS := by
    simp [Nat.min_comm]
  refine ⟨?_, ?_, ?_, ?_, rfl, rfl⟩
  · simp only [encode_obs, List.length_append, List.length_replicate, hvis]
    omega
  · intro i hi
    simp only [encode_obs, List.getD_eq_getElem?_getD]
    rw [List.getElem?_append_left (by rw [hvis]; exact hi)]
    rw [List.map_take, List.getElem?_take_of_lt (by omega)]
  · intro i h20 hmin
    simp only [encode_obs, List.getD_eq_getElem?_getD]
    rw [List.getElem?_append_right (by rw [hvis]; exact hmin)]
    rw [List.getElem?_replicate, if_pos (by rw [hvis]; omega)]
    rfl
  · simp only [encode_obs, List.map_take]

/-- Lemma: `action_masks` depends only on the populated-slot count: closed form as a
table over indices `0..20`. -/
theorem action_masks_eq_map (st : EnvState) :
    action_masks st = (List.range (MAX_VISIBLE_CUSTOMERS + 1)).map
      (fun i =>
        decide (i < min st.visible_customer_ids.length MAX_VISIBLE_CUSTOMERS) ||
          decide (i = get_hold_action_number)) := by
  have hv : min st.visible_customer_ids.length MAX_VISIBLE_CUSTOMERS ≤ 20 :=
    min_le_right _ _
  simp only [action_masks]
  revert hv
  generalize min st.visible_customer_ids.length MAX_VISIBLE_CUSTOMERS = v
  intro hv
  interval_cases v <;> rfl

/-- C5: whenever the visible-slot table satisfies its maintained bound, the
mask has length 21, is `True` exactly on the populated slots and the HOLD
index 20, and counts to `populated + 1`; moreover every table `_get_obs`
builds satisfies the bound. -/
theorem C5_action_mask_invariants (st : EnvState)
    (h : st.visible_customer_ids.length ≤ MAX_VISIBLE_CUSTOMERS) :
    (action_masks st).length = MAX_VISIBLE_CUSTOMERS + 1 ∧
    (∀ i, i < st.visible_customer_ids.length →
      (action_masks st).getD i false = true) ∧
    (∀ i, i < MAX_VISIBLE_CUSTOMERS → st.visible_customer_ids.length ≤ i →
      (action_masks st).getD i false = false) ∧
    (action_masks st).getD get_hold_action_number false = true ∧
    (action_masks st).count true - 1 = st.visible_customer_ids.length ∧
    (∀ st2 : EnvState,
      (get_obs st2).2.visible_customer_ids.length ≤ MAX_VISIBLE_CUSTOMERS) := by
  have hF : ∀ st2 : EnvState,
      (get_obs st2).2.visible_customer_ids.length ≤ MAX_VISIBLE_CUSTOMERS := by
    intro st2
    simp only [get_obs, encode_obs, List.length_map, List.length_take]
    omega
  have key : (action_masks st).length = MAX_VISIBLE_CUSTOMERS + 1 ∧
      (∀ i, i < st.visible_customer_ids.length →
        (action_masks st).getD i false = true) ∧
      (∀ i, i < MAX_VISIBLE_CUSTOMERS → st.visible_customer_ids.length ≤ i →
        (action_masks st).getD i false = false) ∧
      (action_masks st).getD get_hold_action_number false = true ∧
      (action_masks st).count true - 1 = st.visible_customer_ids.length := by
    simp only [action_masks_eq_map, min_eq_left h]
    have h20 : st.visible_customer_ids.length ≤ 20 := h
    revert h20
    generalize st.visible_customer_ids.length = n
    intro h20
    interval_cases n <;>
      exact ⟨by decide, by decide, by decide, by decide, by decide⟩
  exact ⟨key.1, key.2.1, key.2.2.1, key.2.2.2.1, key.2.2.2.2, hF⟩

/-- Witness for C5 at the example state, whose visible-slot table holds the
two example customers. -/
theorem C5_action_mask_invariants_witness :
    (exState.visible_customer_ids.length ≤ MAX_VISIBLE_CUSTOMERS) ∧
    ((action_masks exState).length = MAX_VISIBLE_CUSTOMERS + 1 ∧
      (∀ i, i < exState.visible_customer_ids.length →
        (action_masks exState).getD i false = true) ∧
      (∀ i, i < MAX_VISIBLE_CUSTOMERS →
        exState.visible_customer_ids.length ≤ i →
        (action_masks exState).getD i false = false) ∧
      (action_masks exState).getD get_hold_action_number false = true ∧
      (action_masks exState).count true - 1 =
        exState.visible_customer_ids.length ∧
      (∀ st2 : EnvState,
        (get_obs st2).2.visible_customer_ids.length ≤ MAX_VISIBLE_CUSTOMERS)) :=
  ⟨by decide, C5_action_mask_invariants exState (by decide)⟩

/-- Lemma: `candLe` unfolded to its defining disjunction. -/
theorem candLe_iff (a b : Customer) : candLe a b = true ↔
    (a.arrival_time < b.arrival_time ∨
      (a.arrival_time = b.arrival_time ∧ a.id ≤ b.id)) := by
  simp [candLe]

/-- The candidate key order is total. -/
theorem candLe_total (a b : Customer) : (candLe a b || candLe b a) = true := by
  simp only [Bool.or_eq_true, candLe_iff]
  rcases lt_trichotomy a.arrival_time b.arrival_time with h | h | h
  · exact Or.inl (Or.inl h)
  · rcases le_total a.id b.id with h2 | h2
    · exact Or.inl (Or.inr ⟨h, h2⟩)
    · exact Or.inr (Or.inr ⟨h.symm, h2⟩)
  · exact Or.inr (Or.inl h)

/-- The candidate key order is transitive. -/
theorem candLe_trans (a b c : Customer) (hab : candLe a b = true)
    (hbc : candLe b c = true) : candLe a c = true := by
  rw [candLe_iff] at *
  rcases hab with h1 | ⟨h1, h1id⟩ <;> rcases hbc with h2 | ⟨h2, h2id⟩
  · exact Or.inl (h1.trans h2)
  · exact Or.inl (h2 ▸ h1)
  · exact Or.inl (h1 ▸ h2)
  · exact Or.inr ⟨h1.trans h2, h1id.trans h2id⟩

/-- C7: the candidate selector returns exactly the waiting customers whose
task the selected server serves with strictly positive average service time
(as a permutation of the filtered dict values, with matching membership),
sorted ascending by arrival time with ties broken by ascending id; the empty
waiting set yields the empty list, and any state with the same waiting set and
server yields the identical list. -/
theorem C7_candidate_selector (st : EnvState) :
    (∀ c : Customer, c ∈ get_candidate_customers st ↔
      c ∈ st.customer_waiting.map Prod.snd ∧
        0 < st.current_working_server.avgServiceTime c.task) ∧
    (get_candidate_customers st).Perm
      ((st.customer_waiting.map Prod.snd).filter
        (fun c => decide (0 < st.current_working_server.avgServiceTime c.task))) ∧
    (get_candidate_customers st).Pairwise
      (fun a b => a.arrival_time < b.arrival_time ∨
        (a.arrival_time = b.arrival_time ∧ a.id ≤ b.id)) ∧
    (st.customer_waiting = [] → get_candidate_customers st = []) ∧
    (∀ st2 : EnvState, st2.customer_waiting = st.customer_waiting →
      st2.current_working_server = st.current_working_server →
      get_candidate_customers st2 = get_candidate_customers st) := by
  refine ⟨?_, ?_, ?_, ?_, ?_⟩
  · intro c
    simp [get_candidate_customers, List.mem_filter]
  · simp only [get_candidate_customers]
    exact List.mergeSort_perm _ _
  · exact (List.sorted_mergeSort candLe_trans candLe_total _).imp
      (fun h => (candLe_iff _ _).1 h)
  · intro h
    simp [get_candidate_customers, h]
  · intro st2 h1 h2
    simp only [get_candidate_customers, h1, h2]

/-- Witness for C7's conditional parts: the empty waiting set yields the empty
candidate list. -/
theorem C7_candidate_selector_witness :
    (({ exState with customer_waiting := [] } : EnvState).customer_waiting =
      ([] : List (Int × Customer))) ∧
    get_candidate_customers { exState with customer_waiting := [] } = [] :=
  ⟨rfl, (C7_candidate_selector { exState with customer_waiting := [] }).2.2.2.1
    rfl⟩

/-- Membership in the policy's service-action list: the mask is `True` there
and it is not the HOLD index. -/
theorem mem_policy_service_actions {m : List Bool} {a : Nat} :
    a ∈ policy_service_actions m ↔
      (m[a]? = some true ∧ a ≠ m.length - 1) := by
  simp only [policy_service_actions, List.mem_filter, decide_eq_true_eq,
    List.mem_map]
  constructor
  · rintro ⟨⟨p, ⟨hpe, hpt⟩, rfl⟩, hne⟩
    have := List.mem_enum_iff_getElem?.1 hpe
    rw [hpt] at this
    exact ⟨this, hne⟩
  · rintro ⟨hget, hne⟩
    exact ⟨⟨(a, true), ⟨List.mem_enum_iff_getElem?.2 hget, rfl⟩, rfl⟩, hne⟩

/-- C4 counterexample: on the empty action mask the heuristic policy returns
action 0, which is not the HOLD action (index 20 in this environment, and
`len(mask) - 1 = -1` by the policy's own reckoning). -/
theorem C4_counterexample :
    predict [] [] 0 [] [] = some 0 ∧ (0 : Nat) ≠ get_hold_action_number :=
  ⟨rfl, by decide⟩

/-- C4 amended: for every NONEMPTY action mask offering no legal non-HOLD
action — all entries `False`, or only the last (HOLD) entry `True` — the
heuristic policy returns the HOLD action `len(mask) - 1`; on the empty mask it
returns action 0 instead of HOLD. -/
theorem C4_amended (obs : List Int) (action_mask : List Bool) (sim_time : ℚ)
    (w : List (Int × Customer)) (ap : List (Int × Appointment))
    (hne : action_mask ≠ [])
    (h : ∀ i, i < action_mask.length → action_mask.getD i false = true →
      i = action_mask.length - 1) :
    predict obs action_mask sim_time w ap =
      some (action_mask.length - 1) := by
  have hsvc : policy_service_actions action_mask = [] := by
    rw [List.eq_nil_iff_forall_not_mem]
    intro a ha
    rcases mem_policy_service_actions.1 ha with ⟨hget, hne2⟩
    have hlt : a < action_mask.length := by
      rcases List.getElem?_eq_some.1 hget with ⟨hl, -⟩
      exact hl
    exact hne2 (h a hlt (by simp [List.getD_eq_getElem?_getD, hget]))
  have hmask : action_mask.isEmpty = false := List.isEmpty_eq_false.2 hne
  simp [predict, hsvc, hmask]

/-- Witness for C4's amended statement: a 3-entry mask whose only `True` entry
is the last one; the policy returns that HOLD index, 2. -/
theorem C4_amended_witness :
    ((([false, false, true] : List Bool) ≠ []) ∧
      (∀ i, i < ([false, false, true] : List Bool).length →
        ([false, false, true] : List Bool).getD i false = true →
        i = ([false, false, true] : List Bool).length - 1)) ∧
    predict [] [false, false, true] 0 [] [] =
      some (([false, false, true] : List Bool).length - 1) :=
  ⟨⟨by decide, by decide⟩,
    C4_amended [] [false, false, true] 0 [] [] (by decide) (by decide)⟩

/-- Full specification of the scoring loop: under in-range actions it never
faults, and it returns a best pair that is either the untouched initial pair
(exactly when nothing in the list was scored) or a scored action of the list
paired with its own score; the best score never decreases and finally
dominates the score of every scored action in the list. -/
theorem predict_scan_spec (obs : List Int) (t : ℚ) (w : List (Int × Customer))
    (ap : List (Int × Appointment)) (actions : List Nat) :
    ∀ (ba : Nat) (bs : Option ℚ),
      (∀ a ∈ actions, a < obs.length) →
      ∃ ba2 bs2,
        predict_scan obs t w ap actions ba bs = some (ba2, bs2) ∧
        ((ba2 = ba ∧ bs2 = bs) ∨
          (ba2 ∈ actions ∧ bs2 ≠ none ∧ score_at obs t w ap ba2 = bs2)) ∧
        (∀ q, bs = some q → ∃ q2, bs2 = some q2 ∧ q ≤ q2) ∧
        (∀ a ∈ actions, ∀ s, score_at obs t w ap a = some s →
          ∃ q2, bs2 = some q2 ∧ s ≤ q2) ∧
        (bs2 = none → bs = none ∧ ∀ a ∈ actions, score_at obs t w ap a = none) := by
  induction actions with
  | nil =>
    intro ba bs _
    exact ⟨ba, bs, rfl, Or.inl ⟨rfl, rfl⟩, fun q hq => ⟨q, hq, le_rfl⟩,
      by simp, fun h => ⟨h, by simp⟩⟩
  | cons a0 rest ih =>
    intro ba bs hin
    have ha0 : a0 < obs.length := hin a0 (List.mem_cons_self _ _)
    have hrest : ∀ a ∈ rest, a < obs.length :=
      fun a ha => hin a (List.mem_cons_of_mem _ ha)
    obtain ⟨cid, hcid⟩ : ∃ cid, obs[a0]? = some cid :=
      ⟨obs.get ⟨a0, ha0⟩, List.getElem?_eq_getElem ha0⟩
    by_cases hneg : cid < 0
    · have hskip : score_at obs t w ap a0 = none := by
        simp [score_at, hcid, hneg]
      have hstep : predict_scan obs t w ap (a0 :: rest) ba bs =
          predict_scan obs t w ap rest ba bs := by
        simp [predict_scan, hcid, hneg]
      obtain ⟨ba2, bs2, heq, hprov, hmono, hdom, hnone⟩ := ih ba bs hrest
      refine ⟨ba2, bs2, hstep ▸ heq, ?_, hmono, ?_, ?_⟩
      · rcases hprov with h | ⟨hmem, hne, hsc⟩
        · exact Or.inl h
        · exact Or.inr ⟨List.mem_cons_of_mem _ hmem, hne, hsc⟩
      · intro a ha s hs
        rcases List.mem_cons.1 ha with rfl | hmem
        · rw [hskip] at hs
          exact Option.noConfusion hs
        · exact hdom a hmem s hs
      · intro h
        obtain ⟨h1, h2⟩ := hnone h
        refine ⟨h1, fun a ha => ?_⟩
        rcases List.mem_cons.1 ha with rfl | hmem
        · exact hskip
        · exact h2 a hmem
    · cases hlook : w.lookup cid with
      | none =>
        have hskip : score_at obs t w ap a0 = none := by
          simp [score_at, hcid, hneg, hlook]
        have hstep : predict_scan obs t w ap (a0 :: rest) ba bs =
            predict_scan obs t w ap rest ba bs := by
          simp [predict_scan, hcid, hneg, hlook]
        obtain ⟨ba2, bs2, heq, hprov, hmono, hdom, hnone⟩ := ih ba bs hrest
        refine ⟨ba2, bs2, hstep ▸ heq, ?_, hmono, ?_, ?_⟩
        · rcases hprov with h | ⟨hmem, hne, hsc⟩
          · exact Or.inl h
          · exact Or.inr ⟨List.mem_cons_of_mem _ hmem, hne, hsc⟩
        · intro a ha s hs
          rcases List.mem_cons.1 ha with rfl | hmem
          · rw [hskip] at hs
            exact Option.noConfusion hs
          · exact hdom a hmem s hs
        · intro h
          obtain ⟨h1, h2⟩ := hnone h
          refine ⟨h1, fun a ha => ?_⟩
          rcases List.mem_cons.1 ha with rfl | hmem
          · exact hskip
          · exact h2 a hmem
      | some customer =>
        have hs0 : score_at obs t w ap a0 =
            some (heuristic_score t ap cid customer) := by
          simp [score_at, hcid, hneg, hlook]
        by_cases hbet :
            betterThan (heuristic_score t ap cid customer) bs = true
        · have hstep : predict_scan obs t w ap (a0 :: rest) ba bs =
              predict_scan obs t w ap rest a0
                (some (heuristic_score t ap cid customer)) := by
            simp [predict_scan, hcid, hneg, hlook, hbet]
          obtain ⟨ba2, bs2, heq, hprov, hmono, hdom, hnone⟩ :=
            ih a0 (some (heuristic_score t ap cid customer)) hrest
          refine ⟨ba2, bs2, hstep ▸ heq, ?_, ?_, ?_, ?_⟩
          · rcases hprov with ⟨rfl, rfl⟩ | ⟨hmem, hne, hsc⟩
            · exact Or.inr ⟨List.mem_cons_self _ _, by simp, hs0⟩
            · exact Or.inr ⟨List.mem_cons_of_mem _ hmem, hne, hsc⟩
          · intro q hq
            subst hq
            have hql : q < heuristic_score t ap cid customer := by
              simpa [betterThan] using hbet
            obtain ⟨q2, hq2, hle⟩ := hmono _ rfl
            exact ⟨q2, hq2, le_of_lt (lt_of_lt_of_le hql hle)⟩
          · intro a ha s hs
            rcases List.mem_cons.1 ha with rfl | hmem
            · rw [hs0] at hs
              obtain rfl : heuristic_score t ap cid customer = s :=
                Option.some.injEq _ _ ▸ hs
              exact hmono _ rfl
            · exact hdom a hmem s hs
          · intro h
            obtain ⟨hcontra, -⟩ := hnone h
            exact Option.noConfusion hcontra
        · obtain ⟨b, rfl⟩ : ∃ b, bs = some b := by
            cases bs with
            | none => exact absurd (by simp [betterThan]) hbet
            | some b => exact ⟨b, rfl⟩
          have hsb : heuristic_score t ap cid customer ≤ b := by
            simpa [betterThan, not_lt] using hbet
          have hstep : predict_scan obs t w ap (a0 :: rest) ba (some b) =
              predict_scan obs t w ap rest ba (some b) := by
            simp [predict_scan, hcid, hneg, hlook, hbet]
          obtain ⟨ba2, bs2, heq, hprov, hmono, hdom, hnone⟩ := ih ba (some b) hrest
          refine ⟨ba2, bs2, hstep ▸ heq, ?_, hmono, ?_, ?_⟩
          · rcases hprov with h | ⟨hmem, hne, hsc⟩
            · exact Or.inl h
            · exact Or.inr ⟨List.mem_cons_of_mem _ hmem, hne, hsc⟩
          · intro a ha s hs
            rcases List.mem_cons.1 ha with rfl | hmem
            · rw [hs0] at hs
              obtain rfl : heuristic_score t ap cid customer = s :=
                Option.some.injEq _ _ ▸ hs
              obtain ⟨q2, hq2, hle⟩ := hmono b rfl
              exact ⟨q2, hq2, le_trans hsb hle⟩
            · exact hdom a hmem s hs
          · intro h
            obtain ⟨hcontra, -⟩ := hnone h
            exact Option.noConfusion hcontra

/-- C8: whenever every service action indexes into the observation, the
heuristic policy returns an action; it is the HOLD index `len(mask) - 1` when
every legal non-HOLD action was skipped (negative slot id or id absent from
the waiting set), and otherwise a legal non-HOLD action whose score — waiting
time, plus appointment bonus `max(0, 120 - 4|t - ap.time|)` and early-arrival
penalty `2(ap.time - t - 30)` when applicable, minus `id * 1e-6` — is maximal
among all scored legal actions.  On the spec's example (A: arrival 0, no
appointment; B: arrival 10, appointment at the current time 50) it picks B. -/
theorem C8_heuristic_policy (obs : List Int) (action_mask : List Bool) (t : ℚ)
    (w : List (Int × Customer)) (ap : List (Int × Appointment))
    (hin : ∀ a ∈ policy_service_actions action_mask, a < obs.length) :
    (∃ r, predict obs action_mask t w ap = some r ∧
      ((r = action_mask.length - 1 ∧
          ∀ a ∈ policy_service_actions action_mask,
            score_at obs t w ap a = none) ∨
        (r ∈ policy_service_actions action_mask ∧
          ∃ s, score_at obs t w ap r = some s ∧
            ∀ a ∈ policy_service_actions action_mask,
              ∀ sa, score_at obs t w ap a = some sa → sa ≤ s))) ∧
    predict [101, 202] [true, true, true] 50
      [(101, exCustomerA), (202, exCustomerB)] [(202, exAppointmentB)] =
      some 1 := by
  constructor
  · by_cases hemp : action_mask.isEmpty = true
    · have hmask : action_mask = [] := List.isEmpty_iff.1 hemp
      subst hmask
      refine ⟨0, rfl, Or.inl ⟨rfl, ?_⟩⟩
      intro a ha
      exact absurd (mem_policy_service_actions.1 ha).1 (by simp)
    · by_cases hsvc : policy_service_actions action_mask = []
      · refine ⟨action_mask.length - 1, ?_, Or.inl ⟨rfl, by simp [hsvc]⟩⟩
        simp [predict, hemp, hsvc]
      · obtain ⟨ba2, bs2, heq, hprov, hmono, hdom, hnone⟩ :=
          predict_scan_spec obs t w ap (policy_service_actions action_mask)
            (action_mask.length - 1) none hin
        have hne2 : (policy_service_actions action_mask).isEmpty = false :=
          List.isEmpty_eq_false.2 hsvc
        refine ⟨ba2, ?_, ?_⟩
        · simp [predict, hemp, hne2, heq]
        · cases bs2 with
          | none =>
            obtain ⟨-, hall⟩ := hnone rfl
            rcases hprov with ⟨rfl, -⟩ | ⟨-, hne3, -⟩
            · exact Or.inl ⟨rfl, hall⟩
            · exact absurd rfl hne3
          | some s =>
            rcases hprov with ⟨-, hcontra⟩ | ⟨hmem, -, hsc⟩
            · exact Option.noConfusion hcontra
            · refine Or.inr ⟨hmem, s, hsc, ?_⟩
              intro a ha sa hsa
              obtain ⟨q2, hq2, hle⟩ := hdom a ha sa hsa
              have hqs : q2 = s := by
                injection hq2 with h
                exact h.symm
              exact le_of_le_of_eq hle hqs
  · decide

/-- Witness for C8: at the spec's example inputs both service actions index
into the observation, and the policy picks action 1 (customer B). -/
theorem C8_heuristic_policy_witness :
    (∀ a ∈ policy_service_actions [true, true, true],
      a < ([101, 202] : List Int).length) ∧
    predict [101, 202] [true, true, true] 50
      [(101, exCustomerA), (202, exCustomerB)] [(202, exAppointmentB)] =
      some 1 :=
  ⟨by decide,
    (C8_heuristic_policy [101, 202] [true, true, true] 50
      [(101, exCustomerA), (202, exCustomerB)] [(202, exAppointmentB)]
      (by decide)).2⟩
